import Mathlib

/-!
Verification of the QSP repository core (qsp_models/qsp_layers.py): the QSP
Keras layer (an alternating product of fixed X rotations and trainable Z
rotations on one qubit), its two readout conventions, the four deviation loss
functions, and the model factory construct_qsp_model.

Tensors of shape (N, 1) are embedded as lists of real scalars, 2x2 complex
tensors as matrices over ℂ, and tf.linalg.expm as the standard matrix
exponential NormedSpace.exp ℂ.
-/

open Matrix

noncomputable section

/-- Batched 2x2 complex matrices are embedded one example at a time. -/
abbrev Mat2 := Matrix (Fin 2) (Fin 2) ℂ

/-- Pauli X: the constant px = [[0, 1], [1, 0]] built in QSP.call. -/
def px : Mat2 := !![0, 1; 1, 0]

/-- Pauli Z: the constant pz = [[1, 0], [0, -1]] built in QSP.call. -/
def pz : Mat2 := !![1, 0; 0, -1]

/-- Model of tf.linalg.expm on one 2x2 complex matrix: the standard matrix
exponential (power-series definition). -/
def expm (A : Mat2) : Mat2 := NormedSpace.exp ℂ A

/-- The X rotation W(θ) of one example: the source tiles the complex scalar
i·θ over all four entries and multiplies elementwise with px, which is the
scalar multiple (i·θ) • px, then applies tf.linalg.expm. -/
def wx (θ : ℝ) : Mat2 := expm ((Complex.I * (θ : ℂ)) • px)

/-- The Z rotation R_z(φ) for one phase φ: elementwise product of pz with the
tiled scalar i·φ, then tf.linalg.expm; the batch dimension only repeats the
same matrix. -/
def rz (φ : ℝ) : Mat2 := expm ((Complex.I * (φ : ℂ)) • pz)

lemma smul_pz (c : ℂ) : c • pz = Matrix.diagonal ![c, -c] := by
  ext i j
  fin_cases i <;> fin_cases j <;>
    simp [pz, Matrix.diagonal, Matrix.smul_apply]

/-- Closed form of the Z rotation: exp(iφZ) = diag(exp(iφ), exp(-iφ)). -/
lemma rz_closed (φ : ℝ) :
    rz φ = !![Complex.exp ((φ : ℂ) * Complex.I), 0;
              0, Complex.exp (-(φ : ℂ) * Complex.I)] := by
  have h0 : rz φ = NormedSpace.exp ℂ (Matrix.diagonal ![Complex.I * φ, -(Complex.I * φ)]) := by
    rw [show rz φ = NormedSpace.exp ℂ ((Complex.I * (φ : ℂ)) • pz) from rfl, smul_pz]
  rw [h0, Matrix.exp_diagonal]
  ext i j
  fin_cases i <;> fin_cases j <;>
    simp [Matrix.diagonal, ← Complex.exp_eq_exp_ℂ, mul_comm, neg_mul, mul_neg]

/-- The (unnormalized) Hadamard matrix as a unit, used to diagonalize px. -/
def hadU : Mat2ˣ where
  val := !![1, 1; 1, -1]
  inv := (2 : ℂ)⁻¹ • !![1, 1; 1, -1]
  val_inv := by
    ext i j
    fin_cases i <;> fin_cases j <;>
      simp [Matrix.mul_apply, Fin.sum_univ_two, Matrix.smul_apply] <;> norm_num
  inv_val := by
    ext i j
    fin_cases i <;> fin_cases j <;>
      simp [Matrix.mul_apply, Fin.sum_univ_two, Matrix.smul_apply] <;> norm_num

lemma hadU_val : (hadU : Mat2) = !![1, 1; 1, -1] := rfl

lemma hadU_inv_val : ((hadU⁻¹ : Mat2ˣ) : Mat2) = (2 : ℂ)⁻¹ • !![1, 1; 1, -1] := rfl

lemma had_inv_eq : (!![1, 1; 1, -1] : Mat2)⁻¹ = (2 : ℂ)⁻¹ • !![1, 1; 1, -1] := by
  apply Matrix.inv_eq_right_inv
  ext i j
  fin_cases i <;> fin_cases j <;>
    simp [Matrix.mul_apply, Fin.sum_univ_two, Matrix.smul_apply] <;> norm_num

lemma px_conj :
    (hadU : Mat2) * pz * ((hadU⁻¹ : Mat2ˣ) : Mat2) = px := by
  ext i j
  fin_cases i <;> fin_cases j <;>
    simp [hadU_val, hadU_inv_val, had_inv_eq, px, pz, Matrix.mul_apply,
      Fin.sum_univ_two, Matrix.smul_apply] <;> norm_num

/-- Closed form of the X rotation: exp(iθX) = [[cos θ, i sin θ], [i sin θ, cos θ]]. -/
lemma wx_closed (θ : ℝ) :
    wx θ = !![Complex.cos θ, Complex.I * Complex.sin θ;
              Complex.I * Complex.sin θ, Complex.cos θ] := by
  have h1 : (Complex.I * (θ : ℂ)) • px =
      (hadU : Mat2) * ((Complex.I * (θ : ℂ)) • pz) * ((hadU⁻¹ : Mat2ˣ) : Mat2) := by
    rw [← px_conj, Matrix.mul_smul, Matrix.smul_mul]
  have h2 : wx θ = (hadU : Mat2) *
      NormedSpace.exp ℂ ((Complex.I * (θ : ℂ)) • pz) * ((hadU⁻¹ : Mat2ˣ) : Mat2) := by
    rw [show wx θ = NormedSpace.exp ℂ ((Complex.I * (θ : ℂ)) • px) from rfl, h1,
      Matrix.exp_units_conj]
  rw [h2, show NormedSpace.exp ℂ ((Complex.I * (θ : ℂ)) • pz) =
      !![Complex.exp ((θ : ℂ) * Complex.I), 0;
         0, Complex.exp (-(θ : ℂ) * Complex.I)] from rz_closed θ]
  have hc : Complex.cos (θ : ℂ) =
      (Complex.exp ((θ : ℂ) * Complex.I) + Complex.exp (-(θ : ℂ) * Complex.I)) / 2 := rfl
  have hs : Complex.I * Complex.sin (θ : ℂ) =
      (Complex.exp ((θ : ℂ) * Complex.I) - Complex.exp (-(θ : ℂ) * Complex.I)) / 2 := by
    rw [show Complex.sin (θ : ℂ) =
        (Complex.exp (-(θ : ℂ) * Complex.I) - Complex.exp ((θ : ℂ) * Complex.I)) *
          Complex.I / 2 from rfl]
    linear_combination ((Complex.exp (-(θ : ℂ) * Complex.I) -
      Complex.exp ((θ : ℂ) * Complex.I)) / 2) * Complex.I_mul_I
  ext i j
  fin_cases i <;> fin_cases j <;>
    simp [hadU_val, hadU_inv_val, had_inv_eq, Matrix.mul_apply, Fin.sum_univ_two,
      Matrix.smul_apply, hc, hs] <;> ring

/-- The circuit unitary of one example: the loop of QSP.call, which starts
from z_rotations[0] and, for each following Z rotation, right-multiplies by
the X rotation and then by that Z rotation.  The source indexes
z_rotations[0] unconditionally, so an empty phase list raises IndexError in
Python; the value 1 below is an arbitrary total-function default that no
claim relies on (the layer always owns poly_deg + 1 ≥ 1 phases). -/
def circuitUnitary (phis : List ℝ) (θ : ℝ) : Mat2 :=
  match phis with
  | [] => 1
  | p0 :: rest => rest.foldl (fun u φ => u * wx θ * rz φ) (rz p0)

/-- The QSP Keras layer: its construction-time configuration poly_deg and
convention, and the trainable phase vector phis (shape (poly_deg + 1, 1)). -/
structure QSP where
  poly_deg : ℤ
  convention : ℤ
  phis : List ℝ

/-- Model of QSP.__init__: records poly_deg and convention and allocates the
phase variable of shape (poly_deg + 1, 1), sampled from the uniform
initializer, modelled as an explicit sample stream phi_init.  A negative
tensor dimension (poly_deg + 1 < 0) is rejected by the host library; no other
validation is performed. -/
def QSP.init (poly_deg convention : ℤ) (phi_init : ℕ → ℝ) : Except String QSP :=
  if poly_deg + 1 < 0 then
    .error "ValueError: negative dimension in variable shape"
  else
    .ok ⟨poly_deg, convention, (List.range (poly_deg + 1).toNat).map phi_init⟩

/-- Model of QSP.call on an input batch: each example's circuit unitary is the
alternating product, and the two returned streams are selected by the
convention; a convention other than 0 and 1 falls through both branches and
the Python function returns None, modelled as none. -/
def QSP.call (l : QSP) (th : List ℝ) : Option (List ℝ × List ℝ) :=
  let us := th.map fun θ => circuitUnitary l.phis θ
  if l.convention = 0 then
    some (us.map fun u => (u 0 0).re, us.map fun u => (u 0 0).im)
  else if l.convention = 1 then
    some (us.map fun u => (u 0 0).re, us.map fun u => (u 0 1).im)
  else
    none

lemma foldl_mul_prod (θ : ℝ) (a : Mat2) (l : List ℝ) :
    l.foldl (fun u φ => u * wx θ * rz φ) a =
      a * (l.map fun φ => wx θ * rz φ).prod := by
  induction l generalizing a with
  | nil => simp
  | cons h t ih =>
      rw [List.foldl_cons, ih, List.map_cons, List.prod_cons]
      simp [mul_assoc]

/-- The loop of QSP.call computes the alternating product
R_z(φ_0) · Π_k (W(θ) · R_z(φ_k)). -/
lemma circuitUnitary_cons (p0 : ℝ) (rest : List ℝ) (θ : ℝ) :
    circuitUnitary (p0 :: rest) θ =
      rz p0 * (rest.map fun φ => wx θ * rz φ).prod := by
  rw [show circuitUnitary (p0 :: rest) θ =
      rest.foldl (fun u φ => u * wx θ * rz φ) (rz p0) from rfl,
    foldl_mul_prod]

lemma rz_mem_unitary (φ : ℝ) : rz φ ∈ unitary Mat2 := by
  rw [unitary.mem_iff, Matrix.star_eq_conjTranspose, rz_closed]
  constructor <;>
    · ext i j
      fin_cases i <;> fin_cases j <;>
        simp [Matrix.mul_apply, Fin.sum_univ_two, Matrix.conjTranspose_apply,
          ← Complex.exp_conj, ← Complex.exp_add, Complex.exp_neg]

lemma wx_mem_unitary (θ : ℝ) : wx θ ∈ unitary Mat2 := by
  rw [unitary.mem_iff, Matrix.star_eq_conjTranspose, wx_closed]
  have hcos : (starRingEnd ℂ) (Complex.cos θ) = Complex.cos θ := by
    rw [← Complex.cos_conj, Complex.conj_ofReal]
  have hsin : (starRingEnd ℂ) (Complex.sin θ) = Complex.sin θ := by
    rw [← Complex.sin_conj, Complex.conj_ofReal]
  constructor <;>
    · ext i j
      fin_cases i <;> fin_cases j <;>
        simp [Matrix.mul_apply, Fin.sum_univ_two, Matrix.conjTranspose_apply,
          hcos, hsin, Complex.conj_I] <;>
        first
        | linear_combination (-(Complex.sin (θ : ℂ) ^ 2)) * Complex.I_sq +
            Complex.sin_sq_add_cos_sq (θ : ℂ)
        | ring

lemma circuitUnitary_mem_unitary (phis : List ℝ) (θ : ℝ) :
    circuitUnitary phis θ ∈ unitary Mat2 := by
  cases phis with
  | nil => exact one_mem _
  | cons p0 rest =>
      rw [circuitUnitary_cons]
      refine mul_mem (rz_mem_unitary p0) (Submonoid.list_prod_mem _ ?_)
      intro x hx
      obtain ⟨φ, _, rfl⟩ := List.mem_map.mp hx
      exact mul_mem (wx_mem_unitary θ) (rz_mem_unitary φ)

/-- Model of tf.math.reduce_mean on a real vector: sum divided by length
(0/0 for the empty tensor, which no claim exercises). -/
def reduce_mean (l : List ℝ) : ℝ := l.sum / l.length

/-- Model of tf.math.reduce_max on a real vector: the maximum of its entries.
On an empty tensor the host library returns -inf, which ℝ cannot represent;
the 0 default below is never exercised by the claims, which concern non-empty
batches. -/
def reduce_max (l : List ℝ) : ℝ :=
  match l with
  | [] => 0
  | x :: xs => xs.foldl max x

/-- Loss mean_deviation: mean of the complex moduli of the residuals. -/
def mean_deviation (y_true y_pred : List ℂ) : ℝ :=
  reduce_mean (List.zipWith (fun a b => Complex.abs (a - b)) y_true y_pred)

/-- Loss max_deviation: maximum of the complex moduli of the residuals. -/
def max_deviation (y_true y_pred : List ℂ) : ℝ :=
  reduce_max (List.zipWith (fun a b => Complex.abs (a - b)) y_true y_pred)

/-- Loss mean_deviation_squared: mean of the squared moduli (tf.square is
elementwise). -/
def mean_deviation_squared (y_true y_pred : List ℂ) : ℝ :=
  reduce_mean
    ((List.zipWith (fun a b => Complex.abs (a - b)) y_true y_pred).map fun d => d ^ 2)

/-- Loss max_deviation_squared: maximum of the squared moduli. -/
def max_deviation_squared (y_true y_pred : List ℂ) : ℝ :=
  reduce_max
    ((List.zipWith (fun a b => Complex.abs (a - b)) y_true y_pred).map fun d => d ^ 2)

/-- The if/elif chain of construct_qsp_model that binds the local variable
loss: any flag combination not covered by a branch leaves it unbound, which
is modelled by none. -/
def selectLoss (mean_or_max squared : ℤ) : Option (List ℂ → List ℂ → ℝ) :=
  if mean_or_max = 0 then
    if squared = 0 then some mean_deviation
    else if squared = 1 then some mean_deviation_squared
    else none
  else if mean_or_max = 1 then
    if squared = 0 then some max_deviation
    else if squared = 1 then some max_deviation_squared
    else none
  else none

/-- The compiled Keras model produced by construct_qsp_model: its end-to-end
forward map from a θ batch to a complex batch, the loss bound by compile, the
optimizer learning rate, and the convention attribute set on the model. -/
structure KerasModel where
  forward : List ℝ → List ℂ
  loss : List ℂ → List ℂ → ℝ
  learning_rate : ℝ
  convention : ℤ

/-- The output tensor of the compiled model: the two streams returned by the
QSP layer on the symbolic input are cast to complex and combined elementwise
as real_and_imag_parts[0] + 1j * real_and_imag_parts[1].  With an invalid
convention the layer returns None and the cast raises at model-construction
time; the [] branch below is unreachable because construct_qsp_model guards
the convention before building a model. -/
def modelForward (qsp : QSP) (th : List ℝ) : List ℂ :=
  match qsp.call th with
  | some (re, im) => List.zipWith (fun r i => (r : ℂ) + Complex.I * (i : ℂ)) re im
  | none => []

/-- Model of construct_qsp_model: builds the QSP layer, applies it to the
symbolic input (with an invalid convention the layer returns None and the
tf.cast of None raises before the loss is selected), combines the two output
streams into real + i·imaginary per example, selects the loss from the
(mean_or_max, squared) flags (an uncovered combination leaves the local
variable loss unbound, raising UnboundLocalError at the compile call), and
records convention on the model. -/
def construct_qsp_model (poly_deg convention : ℤ) (lr : ℝ)
    (mean_or_max squared : ℤ) (phi_init : ℕ → ℝ) : Except String KerasModel :=
  match QSP.init poly_deg convention phi_init with
  | .error e => .error e
  | .ok qsp =>
    if qsp.convention = 0 ∨ qsp.convention = 1 then
      match selectLoss mean_or_max squared with
      | some loss => .ok ⟨modelForward qsp, loss, lr, convention⟩
      | none => .error "UnboundLocalError: local variable loss referenced before assignment"
    else .error "TypeError: cannot cast None to a complex tensor"

lemma zipWith_sum_eq_range (f : ℂ → ℂ → ℝ) :
    ∀ (t p : List ℂ), t.length = p.length →
      (List.zipWith f t p).sum =
        ∑ i ∈ Finset.range t.length, f (t.getD i 0) (p.getD i 0) := by
  intro t
  induction t with
  | nil => intro p _; simp
  | cons a t ih =>
      intro p hp
      cases p with
      | nil => simp at hp
      | cons b p =>
          have hlen : t.length = p.length := by simpa using hp
          rw [List.zipWith_cons_cons, List.sum_cons, ih p hlen,
            List.length_cons, Finset.sum_range_succ']
          simp [List.getD_cons_succ, List.getD_cons_zero, add_comm]

lemma foldl_max_mem (xs : List ℝ) : ∀ x : ℝ, xs.foldl max x ∈ x :: xs := by
  induction xs with
  | nil => intro x; simp
  | cons y ys ih =>
      intro x
      rw [List.foldl_cons]
      have h := ih (max x y)
      rcases List.mem_cons.mp h with h1 | h1
      · rcases max_choice x y with hxy | hxy
        · exact List.mem_cons.mpr (Or.inl (h1.trans hxy))
        · exact List.mem_cons.mpr (Or.inr (List.mem_cons.mpr (Or.inl (h1.trans hxy))))
      · simp [h1]

lemma le_foldl_max (xs : List ℝ) : ∀ x : ℝ, ∀ z ∈ x :: xs, z ≤ xs.foldl max x := by
  induction xs with
  | nil => intro x z hz; simp at hz; simp [hz]
  | cons y ys ih =>
      intro x z hz
      rw [List.foldl_cons]
      rcases List.mem_cons.mp hz with rfl | h1
      · exact le_trans (le_max_left z y) (ih (max z y) _ (List.mem_cons_self _ _))
      · rcases List.mem_cons.mp h1 with rfl | h2
        · exact le_trans (le_max_right x z) (ih (max x z) _ (List.mem_cons_self _ _))
        · exact ih (max x y) z (List.mem_cons_of_mem _ h2)

lemma reduce_max_isGreatest (l : List ℝ) (h : l ≠ []) :
    reduce_max l ∈ l ∧ ∀ z ∈ l, z ≤ reduce_max l := by
  cases l with
  | nil => exact absurd rfl h
  | cons x xs =>
      refine ⟨?_, ?_⟩
      · exact foldl_max_mem xs x
      · intro z hz
        exact le_foldl_max xs x z hz

lemma mem_zipWith_iff (f : ℂ → ℂ → ℝ) (t p : List ℂ) (hlen : t.length = p.length)
    (x : ℝ) :
    x ∈ List.zipWith f t p ↔ ∃ i < t.length, x = f (t.getD i 0) (p.getD i 0) := by
  rw [List.mem_iff_getElem]
  constructor
  · rintro ⟨i, hi, rfl⟩
    rw [List.length_zipWith, ← hlen, min_self] at hi
    refine ⟨i, hi, ?_⟩
    rw [List.getElem_zipWith, List.getD_eq_getElem t 0 hi,
      List.getD_eq_getElem p 0 (hlen ▸ hi)]
  · rintro ⟨i, hi, rfl⟩
    have hi2 : i < (List.zipWith f t p).length := by
      rw [List.length_zipWith, ← hlen, min_self]; exact hi
    refine ⟨i, hi2, ?_⟩
    rw [List.getElem_zipWith, List.getD_eq_getElem t 0 hi,
      List.getD_eq_getElem p 0 (hlen ▸ hi)]

/-- C1: for every example θ and every phase vector φ_0 :: rest (so poly_deg =
rest.length ≥ 0), the circuit unitary computed by the QSP forward call is the
ordered product R_z(φ_0) · (W(θ) · R_z(φ_1)) · ... · (W(θ) · R_z(φ_d)),
containing exactly d + 1 Z rotations and d X rotations multiplied left to
right in that fixed order; for poly_deg = 0 the product degenerates to just
R_z(φ_0), with no X rotation factor and no empty multiplication. -/
theorem qsp_call_alternating_product (p0 : ℝ) (rest : List ℝ) (θ : ℝ) :
    circuitUnitary (p0 :: rest) θ =
        rz p0 * (rest.map fun φ => wx θ * rz φ).prod
    ∧ circuitUnitary [p0] θ = rz p0 := by
  refine ⟨circuitUnitary_cons p0 rest θ, ?_⟩
  rw [circuitUnitary_cons]
  simp

/-- C2: on any input batch, the forward call with convention = 0 returns the
index-aligned streams (Re[U_i[0,0]], Im[U_i[0,0]]), and with convention = 1 it
returns (Re[U_i[0,0]], Im[U_i[0,1]]), where U_i is the circuit unitary of
example i. -/
theorem qsp_call_readout_conventions (l : QSP) (th : List ℝ) :
    (l.convention = 0 →
      l.call th = some (th.map fun θ => ((circuitUnitary l.phis θ) 0 0).re,
                        th.map fun θ => ((circuitUnitary l.phis θ) 0 0).im))
    ∧ (l.convention = 1 →
      l.call th = some (th.map fun θ => ((circuitUnitary l.phis θ) 0 0).re,
                        th.map fun θ => ((circuitUnitary l.phis θ) 0 1).im)) := by
  constructor <;> intro h <;> simp [QSP.call, h]

/-- Witness for C2 at the concrete layer (poly_deg 0, convention 0, phase 0)
on the one-example batch [0]. -/
theorem qsp_call_readout_conventions_witness :
    (QSP.mk 0 0 [0]).call [0] =
      some ([(0 : ℝ)].map fun θ => ((circuitUnitary [(0 : ℝ)] θ) 0 0).re,
            [(0 : ℝ)].map fun θ => ((circuitUnitary [(0 : ℝ)] θ) 0 0).im) :=
  (qsp_call_readout_conventions (QSP.mk 0 0 [0]) [0]).1 rfl

/-- C3: the circuit unitary computed inside the forward call is exactly
unitary, U · U† = 1, for every input angle and phase vector (the readout
convention does not enter the computation of U). -/
theorem circuit_unitary_unitarity (p0 : ℝ) (rest : List ℝ) (θ : ℝ) :
    circuitUnitary (p0 :: rest) θ * (circuitUnitary (p0 :: rest) θ)ᴴ = 1 := by
  rw [← Matrix.star_eq_conjTranspose]
  exact unitary.mul_star_self_of_mem (circuitUnitary_mem_unitary (p0 :: rest) θ)

/-- C4 (failing input): the forward call with the unsupported convention 2
silently returns None — it reaches neither readout branch and Python falls
off the end of the function — instead of raising an unsupported-convention
error as the specification requires. -/
theorem qsp_call_invalid_convention_returns_none :
    (QSP.mk 0 2 [0]).call [0] = none := rfl

/-- C5: with poly_deg = 0 (a single phase φ_0) and convention = 0, the two
readout streams are constantly cos φ_0 and sin φ_0, independent of the input
angles. -/
theorem qsp_call_poly_deg_zero (l : QSP) (φ0 : ℝ) (hphis : l.phis = [φ0])
    (hconv : l.convention = 0) (th : List ℝ) :
    l.call th = some (th.map fun _ => Real.cos φ0, th.map fun _ => Real.sin φ0) := by
  have hu : ∀ θ : ℝ, circuitUnitary l.phis θ = rz φ0 := by
    intro θ
    rw [hphis]
    rw [show circuitUnitary [φ0] θ = rz φ0 from rfl]
  simp [QSP.call, hconv, hu, rz_closed, Complex.exp_ofReal_mul_I_re,
    Complex.exp_ofReal_mul_I_im]

/-- Witness for C5 at the concrete layer (poly_deg 0, convention 0, phase 0)
on the one-example batch [0]. -/
theorem qsp_call_poly_deg_zero_witness :
    (QSP.mk 0 0 [0]).call [0] =
      some ([(0 : ℝ)].map fun _ => Real.cos 0, [(0 : ℝ)].map fun _ => Real.sin 0) :=
  qsp_call_poly_deg_zero (QSP.mk 0 0 [0]) 0 rfl rfl [0]

/-- C6: over equal-length non-empty batches, mean_deviation is the mean of
the complex moduli of the residuals, max_deviation their maximum,
mean_deviation_squared the mean of the squared moduli, and
max_deviation_squared their maximum, each one real scalar. -/
theorem loss_functions_deviation_statistics (t p : List ℂ)
    (hlen : t.length = p.length) (hne : t ≠ []) :
    mean_deviation t p =
        (∑ i ∈ Finset.range t.length, Complex.abs (t.getD i 0 - p.getD i 0)) / t.length
    ∧ IsGreatest {x | ∃ i < t.length, x = Complex.abs (t.getD i 0 - p.getD i 0)}
        (max_deviation t p)
    ∧ mean_deviation_squared t p =
        (∑ i ∈ Finset.range t.length,
          Complex.abs (t.getD i 0 - p.getD i 0) ^ 2) / t.length
    ∧ IsGreatest {x | ∃ i < t.length, x = Complex.abs (t.getD i 0 - p.getD i 0) ^ 2}
        (max_deviation_squared t p) := by
  have hlen1 : (List.zipWith (fun a b => Complex.abs (a - b)) t p).length = t.length := by
    rw [List.length_zipWith, ← hlen, min_self]
  have hdne : List.zipWith (fun a b => Complex.abs (a - b)) t p ≠ [] := by
    intro h0
    apply hne
    rw [h0] at hlen1
    exact List.length_eq_zero.mp hlen1.symm
  have hmap : (List.zipWith (fun a b => Complex.abs (a - b)) t p).map (fun d => d ^ 2) =
      List.zipWith (fun a b => Complex.abs (a - b) ^ 2) t p := by
    rw [List.map_zipWith]
  have hlen2 : (List.zipWith (fun a b => Complex.abs (a - b) ^ 2) t p).length = t.length := by
    rw [List.length_zipWith, ← hlen, min_self]
  have hdne2 : List.zipWith (fun a b => Complex.abs (a - b) ^ 2) t p ≠ [] := by
    intro h0
    apply hne
    rw [h0] at hlen2
    exact List.length_eq_zero.mp hlen2.symm
  refine ⟨?_, ?_, ?_, ?_⟩
  · rw [show mean_deviation t p =
        (List.zipWith (fun a b => Complex.abs (a - b)) t p).sum /
          (List.zipWith (fun a b => Complex.abs (a - b)) t p).length from rfl,
      hlen1, zipWith_sum_eq_range _ t p hlen]
  · obtain ⟨hmem, hub⟩ := reduce_max_isGreatest _ hdne
    constructor
    · exact (mem_zipWith_iff _ t p hlen _).mp hmem
    · rintro x ⟨i, hi, rfl⟩
      exact hub _ ((mem_zipWith_iff _ t p hlen _).mpr ⟨i, hi, rfl⟩)
  · rw [show mean_deviation_squared t p =
        ((List.zipWith (fun a b => Complex.abs (a - b)) t p).map (fun d => d ^ 2)).sum /
          ((List.zipWith (fun a b => Complex.abs (a - b)) t p).map (fun d => d ^ 2)).length
        from rfl, hmap, hlen2, zipWith_sum_eq_range _ t p hlen]
  · obtain ⟨hmem, hub⟩ := reduce_max_isGreatest _ hdne2
    have hrw : max_deviation_squared t p =
        reduce_max (List.zipWith (fun a b => Complex.abs (a - b) ^ 2) t p) := by
      rw [show max_deviation_squared t p =
          reduce_max ((List.zipWith (fun a b => Complex.abs (a - b)) t p).map
            (fun d => d ^ 2)) from rfl, hmap]
    rw [hrw]
    constructor
    · exact (mem_zipWith_iff _ t p hlen _).mp hmem
    · rintro x ⟨i, hi, rfl⟩
      exact hub _ ((mem_zipWith_iff _ t p hlen _).mpr ⟨i, hi, rfl⟩)

/-- Witness for C6 on the concrete batches t = [1], p = [0]. -/
theorem loss_functions_deviation_statistics_witness :
    mean_deviation [1] [0] =
        (∑ i ∈ Finset.range (List.length [(1 : ℂ)]),
          Complex.abs (List.getD [(1 : ℂ)] i 0 - List.getD [(0 : ℂ)] i 0)) /
          (List.length [(1 : ℂ)])
    ∧ IsGreatest {x | ∃ i < List.length [(1 : ℂ)],
          x = Complex.abs (List.getD [(1 : ℂ)] i 0 - List.getD [(0 : ℂ)] i 0)}
        (max_deviation [1] [0])
    ∧ mean_deviation_squared [1] [0] =
        (∑ i ∈ Finset.range (List.length [(1 : ℂ)]),
          Complex.abs (List.getD [(1 : ℂ)] i 0 - List.getD [(0 : ℂ)] i 0) ^ 2) /
          (List.length [(1 : ℂ)])
    ∧ IsGreatest {x | ∃ i < List.length [(1 : ℂ)],
          x = Complex.abs (List.getD [(1 : ℂ)] i 0 - List.getD [(0 : ℂ)] i 0) ^ 2}
        (max_deviation_squared [1] [0]) :=
  loss_functions_deviation_statistics [1] [0] rfl (by simp)

lemma zipWith_self_abs (a : List ℂ) :
    List.zipWith (fun x y => Complex.abs (x - y)) a a = List.replicate a.length 0 := by
  induction a with
  | nil => rfl
  | cons x t ih => simp [List.replicate_succ, ih]

lemma foldl_max_replicate_zero (n : ℕ) :
    (List.replicate n (0 : ℝ)).foldl max 0 = 0 := by
  induction n with
  | zero => rfl
  | succ m ih => rw [List.replicate_succ, List.foldl_cons, max_self]; exact ih

lemma reduce_max_replicate_zero (n : ℕ) :
    reduce_max (List.replicate n (0 : ℝ)) = 0 := by
  cases n with
  | zero => rfl
  | succ m =>
      rw [List.replicate_succ, show reduce_max (0 :: List.replicate m (0 : ℝ)) =
        (List.replicate m (0 : ℝ)).foldl max 0 from rfl, foldl_max_replicate_zero]

/-- C7: self-deviation is zero: on any non-empty batch a, mean_deviation(a,a)
and max_deviation(a,a) are both 0. -/
theorem self_deviation_zero (a : List ℂ) (_hne : a ≠ []) :
    mean_deviation a a = 0 ∧ max_deviation a a = 0 := by
  constructor
  · rw [show mean_deviation a a =
        reduce_mean (List.zipWith (fun x y => Complex.abs (x - y)) a a) from rfl,
      zipWith_self_abs]
    simp [reduce_mean]
  · rw [show max_deviation a a =
        reduce_max (List.zipWith (fun x y => Complex.abs (x - y)) a a) from rfl,
      zipWith_self_abs, reduce_max_replicate_zero]

/-- Witness for C7 on the concrete batch [1]. -/
theorem self_deviation_zero_witness :
    mean_deviation [1] [1] = 0 ∧ max_deviation [1] [1] = 0 :=
  self_deviation_zero [(1 : ℂ)] (by simp)

lemma selectLoss_00 : selectLoss 0 0 = some mean_deviation := rfl

lemma selectLoss_01 : selectLoss 0 1 = some mean_deviation_squared := rfl

lemma selectLoss_10 : selectLoss 1 0 = some max_deviation := rfl

lemma selectLoss_11 : selectLoss 1 1 = some max_deviation_squared := rfl

/-- C8 counterexample: constructing a QSP layer with the negative poly_deg -1
does not fail; the phase variable gets the valid shape (0, 1) and construction
returns a layer with an empty phase vector. -/
theorem qsp_init_negative_poly_deg_succeeds :
    QSP.init (-1) 0 (fun _ => 0) = .ok ⟨-1, 0, []⟩ := by
  have hno : ¬ ((-1 : ℤ) + 1 < 0) := by norm_num
  simp [QSP.init, hno]

/-- C8 amended: construction performs no explicit poly_deg validation; it
fails only when the tensor shape dimension poly_deg + 1 is negative (that is,
poly_deg ≤ -2), through the host library's rejection of a negative dimension,
while poly_deg = -1 and every poly_deg ≥ 0 construct successfully with
poly_deg + 1 phases. -/
theorem qsp_init_validation (poly_deg convention : ℤ) (phi_init : ℕ → ℝ) :
    (poly_deg ≤ -2 →
      QSP.init poly_deg convention phi_init =
        .error "ValueError: negative dimension in variable shape")
    ∧ (-1 ≤ poly_deg →
      QSP.init poly_deg convention phi_init =
        .ok ⟨poly_deg, convention, (List.range (poly_deg + 1).toNat).map phi_init⟩) := by
  constructor <;> intro h
  · have hc : poly_deg + 1 < 0 := by omega
    simp [QSP.init, hc]
  · have hc : ¬ (poly_deg + 1 < 0) := by omega
    simp [QSP.init, hc]

/-- Witness for C8 amended at poly_deg = -2 (fails) and poly_deg = -1
(succeeds). -/
theorem qsp_init_validation_witness :
    QSP.init (-2) 0 (fun _ => 0) =
        .error "ValueError: negative dimension in variable shape"
    ∧ QSP.init (-1) 0 (fun _ => 0) =
        .ok ⟨-1, 0, (List.range ((-1 : ℤ) + 1).toNat).map (fun _ => (0 : ℝ))⟩ :=
  ⟨(qsp_init_validation (-2) 0 (fun _ => 0)).1 (by norm_num),
   (qsp_init_validation (-1) 0 (fun _ => 0)).2 (by norm_num)⟩

lemma construct_qsp_model_ok (poly_deg convention : ℤ) (lr : ℝ)
    (mean_or_max squared : ℤ) (phi_init : ℕ → ℝ)
    (hno : ¬ (poly_deg + 1 < 0)) (hc : convention = 0 ∨ convention = 1)
    (loss : List ℂ → List ℂ → ℝ) (hloss : selectLoss mean_or_max squared = some loss) :
    construct_qsp_model poly_deg convention lr mean_or_max squared phi_init =
      .ok ⟨modelForward
            ⟨poly_deg, convention, (List.range (poly_deg + 1).toNat).map phi_init⟩,
          loss, lr, convention⟩ := by
  have hinit : QSP.init poly_deg convention phi_init =
      .ok ⟨poly_deg, convention, (List.range (poly_deg + 1).toNat).map phi_init⟩ := by
    simp [QSP.init, hno]
  rcases hc with rfl | rfl <;> simp [construct_qsp_model, hinit, hloss]

/-- C9: for valid arguments, construct_qsp_model returns a model whose
forward map combines the two QSP readout streams into one complex scalar per
example as real + i·imaginary, whose bound loss is the one of the four
deviation losses selected by (mean_or_max, squared), and whose convention
attribute records the convention argument. -/
theorem construct_qsp_model_wiring (poly_deg convention : ℤ) (lr : ℝ)
    (mean_or_max squared : ℤ) (phi_init : ℕ → ℝ)
    (hd : 0 ≤ poly_deg) (hc : convention = 0 ∨ convention = 1)
    (hm : mean_or_max = 0 ∨ mean_or_max = 1) (hs : squared = 0 ∨ squared = 1) :
    ∃ m : KerasModel,
      construct_qsp_model poly_deg convention lr mean_or_max squared phi_init = .ok m
      ∧ m.convention = convention
      ∧ m.loss = (if mean_or_max = 0 then
                    if squared = 0 then mean_deviation else mean_deviation_squared
                  else
                    if squared = 0 then max_deviation else max_deviation_squared)
      ∧ ∀ th re im,
          QSP.call ⟨poly_deg, convention, (List.range (poly_deg + 1).toNat).map phi_init⟩ th
            = some (re, im) →
          m.forward th = List.zipWith (fun r i => (r : ℂ) + Complex.I * (i : ℂ)) re im := by
  have hno : ¬ (poly_deg + 1 < 0) := by omega
  obtain ⟨loss, hloss, hval⟩ :
      ∃ loss, selectLoss mean_or_max squared = some loss ∧
        loss = (if mean_or_max = 0 then
                  if squared = 0 then mean_deviation else mean_deviation_squared
                else
                  if squared = 0 then max_deviation else max_deviation_squared) := by
    rcases hm with rfl | rfl <;> rcases hs with rfl | rfl <;>
      exact ⟨_, rfl, by norm_num⟩
  refine ⟨_, construct_qsp_model_ok poly_deg convention lr mean_or_max squared phi_init
      hno hc loss hloss, rfl, hval, ?_⟩
  intro th re im hcall
  show modelForward _ th = _
  simp [modelForward, hcall]

/-- Witness for C9 at (poly_deg, convention, lr, mean_or_max, squared) =
(0, 0, 0, 0, 0) with the zero initializer. -/
theorem construct_qsp_model_wiring_witness :
    ∃ m : KerasModel,
      construct_qsp_model 0 0 0 0 0 (fun _ => 0) = .ok m
      ∧ m.convention = 0
      ∧ m.loss = (if (0 : ℤ) = 0 then
                    if (0 : ℤ) = 0 then mean_deviation else mean_deviation_squared
                  else
                    if (0 : ℤ) = 0 then max_deviation else max_deviation_squared)
      ∧ ∀ th re im,
          QSP.call ⟨0, 0, (List.range ((0 : ℤ) + 1).toNat).map (fun _ => (0 : ℝ))⟩ th
            = some (re, im) →
          m.forward th = List.zipWith (fun r i => (r : ℂ) + Complex.I * (i : ℂ)) re im :=
  construct_qsp_model_wiring 0 0 0 0 0 (fun _ => 0) (by norm_num) (Or.inl rfl)
    (Or.inl rfl) (Or.inl rfl)

/-- C10: when mean_or_max is outside {0, 1}, or mean_or_max is in {0, 1} but
squared is outside {0, 1}, no branch of the if/elif chain assigns the local
variable loss, and the call fails at the model.compile step with an
unbound-local-variable error instead of returning a model (hypotheses
restrict to calls that reach the loss selection: a constructible poly_deg and
a valid convention). -/
theorem construct_qsp_model_unbound_loss (poly_deg convention : ℤ) (lr : ℝ)
    (mean_or_max squared : ℤ) (phi_init : ℕ → ℝ)
    (hd : 0 ≤ poly_deg) (hc : convention = 0 ∨ convention = 1)
    (hbad : (mean_or_max ≠ 0 ∧ mean_or_max ≠ 1) ∨
            ((mean_or_max = 0 ∨ mean_or_max = 1) ∧ squared ≠ 0 ∧ squared ≠ 1)) :
    selectLoss mean_or_max squared = none ∧
    construct_qsp_model poly_deg convention lr mean_or_max squared phi_init =
      .error "UnboundLocalError: local variable loss referenced before assignment" := by
  have hsel : selectLoss mean_or_max squared = none := by
    rcases hbad with ⟨h1, h2⟩ | ⟨h1, h2, h3⟩
    · simp [selectLoss, h1, h2]
    · rcases h1 with rfl | rfl <;> simp [selectLoss, h2, h3]
  refine ⟨hsel, ?_⟩
  have hno : ¬ (poly_deg + 1 < 0) := by omega
  have hinit : QSP.init poly_deg convention phi_init =
      .ok ⟨poly_deg, convention, (List.range (poly_deg + 1).toNat).map phi_init⟩ := by
    simp [QSP.init, hno]
  rcases hc with rfl | rfl <;> simp [construct_qsp_model, hinit, hsel]

/-- Witness for C10 at mean_or_max = 2, squared = 0 with otherwise valid
arguments. -/
theorem construct_qsp_model_unbound_loss_witness :
    selectLoss 2 0 = none ∧
    construct_qsp_model 0 0 0 2 0 (fun _ => 0) =
      .error "UnboundLocalError: local variable loss referenced before assignment" :=
  construct_qsp_model_unbound_loss 0 0 0 2 0 (fun _ => 0) (by norm_num) (Or.inl rfl)
    (Or.inl (by norm_num))
